import Mathlib

/-!
Verification of the scheduled RDS auto start/stop lambda
(`lambda_function/src/main.py`, class `CWScheduledEventManageRdsState`).

The remote AWS surface (tag-based paginated discovery and the four
start/stop operations) is modelled as an environment oracle `Env`; the
handler itself is embedded as executable Lean functions producing the
ordered trace of observable events (log lines, discovery queries, remote
start/stop calls) together with the uncaught fault, if any.
-/

namespace ManageRdsState

/-- Log severities offered by the base-class logger collaborator. -/
inductive Severity
  | info
  | debug
  | warning
  deriving DecidableEq

/-- Direction of a lifecycle transition. -/
inductive Direction
  | start
  | stop
  deriving DecidableEq

/-- The two resource categories handled: standalone instances (`rds:db`)
and clusters (`rds:cluster`). -/
inductive ResourceCategory
  | db
  | cluster
  deriving DecidableEq

/-- Faults a remote start/stop call can raise: the two invalid-state
fault classes of the SDK, or any other error (not-found, auth, ...). -/
inductive Fault
  | invalidDBInstanceState
  | invalidDBClusterState
  | other (name : String)
  deriving DecidableEq

/-- Observable events of one invocation, in order: a log line, a
tag-discovery query, or a remote start/stop call for one identifier. -/
inductive Event
  | log (sev : Severity) (msg : String)
  | discover (region : String) (resourceType : String)
  | apiCall (d : Direction) (c : ResourceCategory) (region : String) (ident : String)
  deriving DecidableEq

/-- Modelled from the spec: the structured success response produced by
the collaborator's `_build_response_ok` (its shape is opaque to the core). -/
inductive Response
  | ok
  deriving DecidableEq

/-- The remote AWS surface: `discoverPages region resourceType tagKey tagValue`
is the page sequence (each page a list of resource ARNs) that the paginated
tagging API returns, and `callFault d c region ident` is the fault raised by
the corresponding start/stop call (`none` = call succeeds). -/
structure Env where
  discoverPages : String → String → String → String → List (List String)
  callFault : Direction → ResourceCategory → String → String → Option Fault

/-- The environment-derived class-level configuration (`PARAM_ACTION`,
`PARAM_RESOURCE_TAG_KEY`, `PARAM_RESOURCE_TAG_VALUE`, `PARAM_AWS_REGIONS`). -/
structure Config where
  ACTION : String
  RESOURCE_TAG_KEY : String
  RESOURCE_TAG_VALUE : String
  PARAM_AWS_REGIONS : String

/-- Python `str.split` with a one-character separator, on the character
list: split at every occurrence of `sep`, keeping empty segments. -/
def splitChars (sep : Char) : List Char → List (List Char)
  | [] => [[]]
  | c :: cs =>
    match splitChars sep cs with
    | [] => [[]]
    | seg :: rest => if c = sep then [] :: seg :: rest else (c :: seg) :: rest

/-- Python `s.split(sep)` for a one-character separator. -/
def pySplit (sep : Char) (s : String) : List String :=
  (splitChars sep s.data).map (fun cs => String.mk cs)

/-- `resource['ResourceARN'].split(':')[-1]` — the final segment of the ARN
split on a colon (the split list is never empty, so the default is unused). -/
def extractIdentifier (arn : String) : String :=
  (pySplit ':' arn).getLastD ""

/-- `_get_resource_identifiers_by_tag`: walk every page returned by the
paginated tagging query and append the extracted identifier of every
resource, in page order and within-page order. -/
def get_resource_identifiers_by_tag (env : Env) (aws_region_name aws_resource_type tag_key tag_value : String) : List String :=
  (env.discoverPages aws_region_name aws_resource_type tag_key tag_value).foldl
    (fun acc page => page.foldl (fun acc2 arn => acc2 ++ [extractIdentifier arn]) acc) []

/-- Severity of the per-identifier pre-attempt log line: the stop
operations use `logger.info`, the start operations use `logger.debug`. -/
def attemptSev : Direction → Severity
  | .start => .debug
  | .stop => .info

/-- Noun used in the log messages for each category. -/
def categoryNoun : ResourceCategory → String
  | .db => "instance"
  | .cluster => "cluster"

/-- Capitalized verb of the direction, as in the log messages. -/
def verbing : Direction → String
  | .start => "Starting"
  | .stop => "Stopping"

/-- Lowercase verb of the direction, as in the warning messages. -/
def verb : Direction → String
  | .start => "start"
  | .stop => "stop"

/-- Target state named by the success log line. -/
def targetState : Direction → String
  | .start => "[AVAILABLE]"
  | .stop => "[STOPPED]"

/-- Per-identifier pre-attempt log message. -/
def attemptMsg (d : Direction) (c : ResourceCategory) (n : String) : String :=
  ">> " ++ verbing d ++ " RDS database " ++ categoryNoun c ++ " " ++ n ++ "."

/-- Per-identifier success log message, naming the target state. -/
def okMsg (d : Direction) (c : ResourceCategory) (n : String) : String :=
  ">> RDS database " ++ categoryNoun c ++ " " ++ n ++ " => " ++ targetState d ++ "."

/-- Per-identifier warning message on a caught invalid-state fault. -/
def warnMsg (d : Direction) (c : ResourceCategory) (n : String) : String :=
  ">> Unable to " ++ verb d ++ " RDS database " ++ categoryNoun c ++ " " ++ n ++ " due to invalid state."

/-- Batch header log message of each of the four operations. -/
def headerMsg (d : Direction) (c : ResourceCategory) : String :=
  "> " ++ verbing d ++ " RDS database " ++ categoryNoun c ++ "s."

/-- The single fault class caught by an operation of category `c`:
`InvalidDBInstanceStateFault` for instances, `InvalidDBClusterStateFault`
for clusters. -/
def catchFault : ResourceCategory → Fault
  | .db => .invalidDBInstanceState
  | .cluster => .invalidDBClusterState

/-- The shared per-identifier loop of the four transition operations:
log the attempt, issue the remote call; on success log the reached state,
on the category's invalid-state fault log a warning and continue, on any
other fault stop and propagate it. -/
def transitionLoop (env : Env) (d : Direction) (c : ResourceCategory) (region : String) : List String → List Event × Option Fault
  | [] => ([], none)
  | n :: rest =>
    match env.callFault d c region n with
    | none =>
      (Event.log (attemptSev d) (attemptMsg d c n) :: Event.apiCall d c region n ::
        Event.log .info (okMsg d c n) :: (transitionLoop env d c region rest).1,
       (transitionLoop env d c region rest).2)
    | some f =>
      if f = catchFault c then
        (Event.log (attemptSev d) (attemptMsg d c n) :: Event.apiCall d c region n ::
          Event.log .warning (warnMsg d c n) :: (transitionLoop env d c region rest).1,
         (transitionLoop env d c region rest).2)
      else
        ([Event.log (attemptSev d) (attemptMsg d c n), Event.apiCall d c region n], some f)

/-- `_stop_database_instances`. -/
def stop_database_instances (env : Env) (aws_region_name : String) (rds_database_instance_names : List String) : List Event × Option Fault :=
  (Event.log .info (headerMsg .stop .db) :: (transitionLoop env .stop .db aws_region_name rds_database_instance_names).1,
   (transitionLoop env .stop .db aws_region_name rds_database_instance_names).2)

/-- `_start_database_instances`. -/
def start_database_instances (env : Env) (aws_region_name : String) (rds_database_instance_names : List String) : List Event × Option Fault :=
  (Event.log .info (headerMsg .start .db) :: (transitionLoop env .start .db aws_region_name rds_database_instance_names).1,
   (transitionLoop env .start .db aws_region_name rds_database_instance_names).2)

/-- `_stop_database_clusters`. -/
def stop_database_clusters (env : Env) (aws_region_name : String) (rds_database_cluster_names : List String) : List Event × Option Fault :=
  (Event.log .info (headerMsg .stop .cluster) :: (transitionLoop env .stop .cluster aws_region_name rds_database_cluster_names).1,
   (transitionLoop env .stop .cluster aws_region_name rds_database_cluster_names).2)

/-- `_start_database_clusters`. -/
def start_database_clusters (env : Env) (aws_region_name : String) (rds_database_cluster_names : List String) : List Event × Option Fault :=
  (Event.log .info (headerMsg .start .cluster) :: (transitionLoop env .start .cluster aws_region_name rds_database_cluster_names).1,
   (transitionLoop env .start .cluster aws_region_name rds_database_cluster_names).2)

/-- The resource-type filter string passed to discovery for a category. -/
def categoryType : ResourceCategory → String
  | .db => "rds:db"
  | .cluster => "rds:cluster"

/-- The identifiers discovery returns for one region and category under
the configured tag key / value. -/
def discovered (env : Env) (cfg : Config) (r : String) (c : ResourceCategory) : List String :=
  get_resource_identifiers_by_tag env r (categoryType c) cfg.RESOURCE_TAG_KEY cfg.RESOURCE_TAG_VALUE

/-- `'> Searching RDS %s in region %s having tag %s=%s.'` -/
def searchMsg (what : String) (cfg : Config) (r : String) : String :=
  "> Searching RDS " ++ what ++ " in region " ++ r ++ " having tag " ++
    cfg.RESOURCE_TAG_KEY ++ "=" ++ cfg.RESOURCE_TAG_VALUE ++ "."

/-- `'> Found %s RDS %s in region %s having tag %s=%s.'` -/
def foundMsg (what : String) (cfg : Config) (r : String) (n : Nat) : String :=
  "> Found " ++ toString n ++ " RDS " ++ what ++ " in region " ++ r ++ " having tag " ++
    cfg.RESOURCE_TAG_KEY ++ "=" ++ cfg.RESOURCE_TAG_VALUE ++ "."

/-- `AWS_REGIONS = os.environ['PARAM_AWS_REGIONS'].split(',')`. -/
def AWS_REGIONS (cfg : Config) : List String :=
  pySplit ',' cfg.PARAM_AWS_REGIONS

/-- The `ACTION` dispatch shared by the instance block (lines 111-115) and
the cluster block (lines 127-131) of `_execute`: skip an empty batch, run
the start operation when `ACTION in ['enable', 'start']`, the stop
operation when `ACTION in ['disable', 'stop']`, otherwise nothing. -/
def transitionBatch (env : Env) (cfg : Config) (c : ResourceCategory) (r : String) (names : List String) : List Event × Option Fault :=
  if names.length > 0 then
    if cfg.ACTION = "enable" ∨ cfg.ACTION = "start" then
      match c with
      | .db => start_database_instances env r names
      | .cluster => start_database_clusters env r names
    else if cfg.ACTION = "disable" ∨ cfg.ACTION = "stop" then
      match c with
      | .db => stop_database_instances env r names
      | .cluster => stop_database_clusters env r names
    else ([], none)
  else ([], none)

/-- The body of one iteration of the region loop of `_execute`: search
log, instance discovery, found log, instance transitions, then the same
for clusters; an uncaught fault stops the iteration where it occurred. -/
def execute_region (env : Env) (cfg : Config) (r : String) : List Event × Option Fault :=
  let instNames := discovered env cfg r ResourceCategory.db
  let instPart := transitionBatch env cfg ResourceCategory.db r instNames
  let dbHead : List Event :=
    [Event.log .info (searchMsg "databases" cfg r), Event.discover r "rds:db",
     Event.log .info (foundMsg "databases" cfg r instNames.length)]
  match instPart.2 with
  | some f => (dbHead ++ instPart.1, some f)
  | none =>
    let clNames := discovered env cfg r ResourceCategory.cluster
    let clPart := transitionBatch env cfg ResourceCategory.cluster r clNames
    let clHead : List Event :=
      [Event.log .info (searchMsg "clusters" cfg r), Event.discover r "rds:cluster",
       Event.log .info (foundMsg "clusters" cfg r clNames.length)]
    (dbHead ++ instPart.1 ++ (clHead ++ clPart.1), clPart.2)

/-- The region loop of `_execute`: regions in configured order, an
uncaught fault aborts the remaining regions. -/
def run_regions (env : Env) (cfg : Config) : List String → List Event × Option Fault
  | [] => ([], none)
  | r :: rest =>
    match (execute_region env cfg r).2 with
    | some f => ((execute_region env cfg r).1, some f)
    | none =>
      ((execute_region env cfg r).1 ++ (run_regions env cfg rest).1,
       (run_regions env cfg rest).2)

/-- Modelled from the spec: the collaborator's `_build_response_ok`,
producing the success payload. -/
def build_response_ok : Response := Response.ok

/-- `_execute`: start log, the region loop, completion log and success
response — or the uncaught fault propagating to the invocation wrapper. -/
def execute (env : Env) (cfg : Config) : List Event × Except Fault Response :=
  match (run_regions env cfg (AWS_REGIONS cfg)).2 with
  | some f =>
    (Event.log .info "Starting the operation." :: (run_regions env cfg (AWS_REGIONS cfg)).1,
     Except.error f)
  | none =>
    (Event.log .info "Starting the operation." ::
      ((run_regions env cfg (AWS_REGIONS cfg)).1 ++ [Event.log .info "Operation completed successfully."]),
     Except.ok build_response_ok)

/-- Number of remote calls in a trace for a given direction, category,
region and identifier. -/
def countCalls (evs : List Event) (d : Direction) (c : ResourceCategory) (r i : String) : Nat :=
  (evs.filter (fun e => decide (e = Event.apiCall d c r i))).length

/-- Number of occurrences of a string in a list. -/
def countOcc (l : List String) (x : String) : Nat :=
  (l.filter (fun y => decide (y = x))).length

/-- The remote call for `(d, c, r, n)` either succeeds or raises exactly
the fault class that the category-`c` operations catch. -/
def benignAt (env : Env) (d : Direction) (c : ResourceCategory) (r n : String) : Prop :=
  env.callFault d c r n = none ∨ env.callFault d c r n = some (catchFault c)

/-- Every remote call in the environment is `benignAt`: no uncaught
fault class ever occurs. -/
def benign (env : Env) : Prop :=
  ∀ d c r n, benignAt env d c r n

/-- The transition direction that `_execute`'s dispatch applies for a
configured action value (`none`: no transition is ever applied). -/
def actionDirection (a : String) : Option Direction :=
  if a = "enable" ∨ a = "start" then some Direction.start
  else if a = "disable" ∨ a = "stop" then some Direction.stop
  else none

/-- Modelled from the spec: the suffix of a character list after the
last occurrence of `sep` (the whole list when `sep` does not occur). -/
def afterLastSep (sep : Char) : List Char → List Char
  | [] => []
  | c :: cs =>
    if sep ∈ cs then afterLastSep sep cs
    else if c = sep then cs else c :: cs

/-- Modelled from the spec: "the identifier equals the substring of the
fully-qualified name after the last colon". -/
def identifierSpec (arn : String) : String :=
  String.mk (afterLastSep ':' arn.data)

/-- The search log, discovery query and found log for the instance
category of one region. -/
def regionDbHead (env : Env) (cfg : Config) (r : String) : List Event :=
  [Event.log .info (searchMsg "databases" cfg r), Event.discover r "rds:db",
   Event.log .info (foundMsg "databases" cfg r (discovered env cfg r ResourceCategory.db).length)]

/-- The search log, discovery query and found log for the cluster
category of one region. -/
def regionClHead (env : Env) (cfg : Config) (r : String) : List Event :=
  [Event.log .info (searchMsg "clusters" cfg r), Event.discover r "rds:cluster",
   Event.log .info (foundMsg "clusters" cfg r (discovered env cfg r ResourceCategory.cluster).length)]

/-- Modelled from the spec's state machine: the event block of one
region — discover instances, transition instances, discover clusters,
transition clusters, with the surrounding search/found log lines. -/
def executeRegionSpec (env : Env) (cfg : Config) (r : String) : List Event :=
  (regionDbHead env cfg r
   ++ (transitionBatch env cfg ResourceCategory.db r (discovered env cfg r ResourceCategory.db)).1)
  ++ (regionClHead env cfg r
   ++ (transitionBatch env cfg ResourceCategory.cluster r (discovered env cfg r ResourceCategory.cluster)).1)

/-- Concatenation of the per-element traces of a list. -/
def traceConcat (f : String → List Event) : List String → List Event
  | [] => []
  | r :: rest => f r ++ traceConcat f rest

/-- `true` on remote-call events. -/
def isApiCall : Event → Bool
  | .apiCall _ _ _ _ => true
  | _ => false

/-- `true` on log events of the given severity. -/
def isLogWithSev (sev : Severity) : Event → Bool
  | .log s _ => decide (s = sev)
  | _ => false

/-- Helper of `callsImmediatelyPreceded`: walk the trace remembering the
previous event; every remote call must be immediately preceded by a log
line of severity `sev`. -/
def cipAux (sev : Severity) (prev : Event) : List Event → Bool
  | [] => true
  | e :: rest => ((!isApiCall e) || isLogWithSev sev prev) && cipAux sev e rest

/-- Every remote call in the trace is immediately preceded by a log line
of severity `sev` (and the trace does not begin with a remote call). -/
def callsImmediatelyPreceded (sev : Severity) : List Event → Bool
  | [] => true
  | e :: rest => (!isApiCall e) && cipAux sev e rest

/-- Every successful remote call in the trace is immediately followed by
the informational success log naming the target state, and every remote
call that raised the caught invalid-state fault is immediately followed
by the corresponding warning log. -/
def followUpOK (env : Env) : List Event → Bool
  | [] => true
  | Event.apiCall d c r i :: rest =>
    (match env.callFault d c r i with
     | none =>
       match rest with
       | e2 :: _ => decide (e2 = Event.log .info (okMsg d c i))
       | [] => false
     | some f =>
       if f = catchFault c then
         match rest with
         | e2 :: _ => decide (e2 = Event.log .warning (warnMsg d c i))
         | [] => false
       else true) && followUpOK env rest
  | _ :: rest => followUpOK env rest

/-- Dispatch to the four transition operations by direction and category. -/
def batchOf (env : Env) (d : Direction) (c : ResourceCategory) (r : String) (names : List String) : List Event × Option Fault :=
  match d, c with
  | .stop, .db => stop_database_instances env r names
  | .start, .db => start_database_instances env r names
  | .stop, .cluster => stop_database_clusters env r names
  | .start, .cluster => start_database_clusters env r names

/-- Environment where every discovery returns one page with one tagged
resource and every remote call succeeds. -/
def envAllOk : Env :=
  ⟨fun _ _ _ _ => [["a:x"]], fun _ _ _ _ => none⟩

/-- Environment where every discovery returns one tagged resource and
every remote call raises the caught invalid-state fault of its category. -/
def envAllInvalid : Env :=
  ⟨fun _ _ _ _ => [["a:x"]], fun _ c _ _ => some (catchFault c)⟩

/-- Environment where region `rb` has three tagged instances and the stop
call for `bad` in `rb` raises an uncaught fault. -/
def envHardFault : Env :=
  ⟨fun r t _ _ => if r = "rb" ∧ t = "rds:db" then [["a:good", "a:bad", "a:later"]] else [],
   fun d c r i =>
     if d = Direction.stop ∧ c = ResourceCategory.db ∧ r = "rb" ∧ i = "bad"
     then some (Fault.other "boom") else none⟩

/-- Environment where every discovery returns no resources. -/
def envEmpty : Env :=
  ⟨fun _ _ _ _ => [], fun _ _ _ _ => none⟩

/-- Configuration with action `start` and a single region. -/
def cfgStart : Config := ⟨"start", "k", "v", "r1"⟩

/-- Configuration with action `stop` and two regions. -/
def cfgStop2 : Config := ⟨"stop", "k", "v", "r1,r2"⟩

/-- Configuration with action `stop` and three regions. -/
def cfgStop3 : Config := ⟨"stop", "k", "v", "ra,rb,rc"⟩

/-- Configuration with an unrecognized action value. -/
def cfgOther : Config := ⟨"destroy", "k", "v", "r1"⟩

/-- Configuration whose raw region list is the empty string. -/
def cfgEmptyRegions : Config := ⟨"start", "k", "v", ""⟩

lemma transitionLoop_nil (env : Env) (d : Direction) (c : ResourceCategory) (region : String) :
    transitionLoop env d c region [] = ([], none) := rfl

lemma transitionLoop_cons_none (env : Env) (d : Direction) (c : ResourceCategory) (region n : String)
    (rest : List String) (h : env.callFault d c region n = none) :
    transitionLoop env d c region (n :: rest) =
      (Event.log (attemptSev d) (attemptMsg d c n) :: Event.apiCall d c region n ::
        Event.log .info (okMsg d c n) :: (transitionLoop env d c region rest).1,
       (transitionLoop env d c region rest).2) := by
  simp [transitionLoop, h]

lemma transitionLoop_cons_caught (env : Env) (d : Direction) (c : ResourceCategory) (region n : String)
    (rest : List String) (h : env.callFault d c region n = some (catchFault c)) :
    transitionLoop env d c region (n :: rest) =
      (Event.log (attemptSev d) (attemptMsg d c n) :: Event.apiCall d c region n ::
        Event.log .warning (warnMsg d c n) :: (transitionLoop env d c region rest).1,
       (transitionLoop env d c region rest).2) := by
  simp [transitionLoop, h]

lemma transitionLoop_cons_hard (env : Env) (d : Direction) (c : ResourceCategory) (region n : String)
    (rest : List String) (f : Fault) (h : env.callFault d c region n = some f)
    (hf : f ≠ catchFault c) :
    transitionLoop env d c region (n :: rest) =
      ([Event.log (attemptSev d) (attemptMsg d c n), Event.apiCall d c region n], some f) := by
  simp [transitionLoop, h, hf]

@[simp] lemma countCalls_nil (d : Direction) (c : ResourceCategory) (r i : String) :
    countCalls [] d c r i = 0 := rfl

@[simp] lemma countCalls_cons_log (sv : Severity) (m : String) (evs : List Event)
    (d : Direction) (c : ResourceCategory) (r i : String) :
    countCalls (Event.log sv m :: evs) d c r i = countCalls evs d c r i := by
  simp [countCalls]

@[simp] lemma countCalls_cons_discover (rg t : String) (evs : List Event)
    (d : Direction) (c : ResourceCategory) (r i : String) :
    countCalls (Event.discover rg t :: evs) d c r i = countCalls evs d c r i := by
  simp [countCalls]

lemma countCalls_cons_call (d' : Direction) (c' : ResourceCategory) (r' i' : String)
    (evs : List Event) (d : Direction) (c : ResourceCategory) (r i : String) :
    countCalls (Event.apiCall d' c' r' i' :: evs) d c r i =
      (if d' = d ∧ c' = c ∧ r' = r ∧ i' = i then 1 else 0) + countCalls evs d c r i := by
  by_cases h : d' = d ∧ c' = c ∧ r' = r ∧ i' = i
  · obtain ⟨h1, h2, h3, h4⟩ := h
    subst h1; subst h2; subst h3; subst h4
    simp [countCalls, Nat.add_comm]
  · have hne : Event.apiCall d' c' r' i' ≠ Event.apiCall d c r i := by
      intro hc
      injection hc with e1 e2 e3 e4
      exact h ⟨e1, e2, e3, e4⟩
    simp [countCalls, hne, h]

@[simp] lemma countCalls_append (a b : List Event) (d : Direction) (c : ResourceCategory) (r i : String) :
    countCalls (a ++ b) d c r i = countCalls a d c r i + countCalls b d c r i := by
  simp [countCalls]

@[simp] lemma countOcc_nil (x : String) : countOcc [] x = 0 := rfl

lemma countOcc_cons (y : String) (l : List String) (x : String) :
    countOcc (y :: l) x = (if y = x then 1 else 0) + countOcc l x := by
  by_cases h : y = x
  · subst h; simp [countOcc, Nat.add_comm]
  · simp [countOcc, h]

@[simp] lemma countOcc_append (a b : List String) (x : String) :
    countOcc (a ++ b) x = countOcc a x + countOcc b x := by
  simp [countOcc]

lemma transitionLoop_fault_none (env : Env) (d : Direction) (c : ResourceCategory) (region : String)
    (names : List String) (hb : ∀ n ∈ names, benignAt env d c region n) :
    (transitionLoop env d c region names).2 = none := by
  induction names with
  | nil => rfl
  | cons n rest ih =>
    have hn := hb n (by simp)
    have hrest : ∀ m ∈ rest, benignAt env d c region m := fun m hm => hb m (by simp [hm])
    rcases hn with h | h
    · rw [transitionLoop_cons_none env d c region n rest h]
      exact ih hrest
    · rw [transitionLoop_cons_caught env d c region n rest h]
      exact ih hrest

lemma transitionLoop_append (env : Env) (d : Direction) (c : ResourceCategory) (region : String)
    (l1 l2 : List String) (hb : ∀ n ∈ l1, benignAt env d c region n) :
    transitionLoop env d c region (l1 ++ l2) =
      ((transitionLoop env d c region l1).1 ++ (transitionLoop env d c region l2).1,
       (transitionLoop env d c region l2).2) := by
  induction l1 with
  | nil => simp [transitionLoop_nil]
  | cons n rest ih =>
    have hn := hb n (by simp)
    have hrest : ∀ m ∈ rest, benignAt env d c region m := fun m hm => hb m (by simp [hm])
    rcases hn with h | h
    · rw [List.cons_append, transitionLoop_cons_none env d c region n _ h,
        transitionLoop_cons_none env d c region n rest h, ih hrest]
      simp
    · rw [List.cons_append, transitionLoop_cons_caught env d c region n _ h,
        transitionLoop_cons_caught env d c region n rest h, ih hrest]
      simp

lemma transitionLoop_count (env : Env) (d : Direction) (c : ResourceCategory) (region : String)
    (names : List String) (hb : ∀ n ∈ names, benignAt env d c region n)
    (d' : Direction) (c' : ResourceCategory) (r' i : String) :
    countCalls (transitionLoop env d c region names).1 d' c' r' i =
      if d = d' ∧ c = c' ∧ region = r' then countOcc names i else 0 := by
  induction names with
  | nil => simp [transitionLoop_nil]
  | cons n rest ih =>
    have hn := hb n (by simp)
    have hrest : ∀ m ∈ rest, benignAt env d c region m := fun m hm => hb m (by simp [hm])
    have step : countCalls (transitionLoop env d c region (n :: rest)).1 d' c' r' i =
        (if d = d' ∧ c = c' ∧ region = r' ∧ n = i then 1 else 0) +
          countCalls (transitionLoop env d c region rest).1 d' c' r' i := by
      rcases hn with h | h
      · rw [transitionLoop_cons_none env d c region n rest h]
        simp [countCalls_cons_call]
      · rw [transitionLoop_cons_caught env d c region n rest h]
        simp [countCalls_cons_call]
    rw [step, ih hrest, countOcc_cons]
    by_cases hm : d = d' ∧ c = c' ∧ region = r'
    · obtain ⟨h1, h2, h3⟩ := hm
      by_cases hni : n = i <;> simp [h1, h2, h3, hni]
    · have : ¬(d = d' ∧ c = c' ∧ region = r' ∧ n = i) := by
        intro hc; exact hm ⟨hc.1, hc.2.1, hc.2.2.1⟩
      simp [hm, this]

lemma transitionLoop_call_mem (env : Env) (d : Direction) (c : ResourceCategory) (region : String)
    (names : List String) (d' : Direction) (c' : ResourceCategory) (r' i : String)
    (h : Event.apiCall d' c' r' i ∈ (transitionLoop env d c region names).1) :
    d' = d ∧ c' = c ∧ r' = region ∧ i ∈ names := by
  induction names with
  | nil => simp [transitionLoop_nil] at h
  | cons n rest ih =>
    rcases hcf : env.callFault d c region n with _ | f
    · rw [transitionLoop_cons_none env d c region n rest hcf] at h
      simp only [List.mem_cons] at h
      rcases h with h | h | h | h
      · exact absurd h (by simp)
      · injection h with e1 e2 e3 e4
        exact ⟨e1, e2, e3, by simp [e4]⟩
      · exact absurd h (by simp)
      · obtain ⟨e1, e2, e3, e4⟩ := ih h
        exact ⟨e1, e2, e3, by simp [e4]⟩
    · by_cases hf : f = catchFault c
      · subst hf
        rw [transitionLoop_cons_caught env d c region n rest hcf] at h
        simp only [List.mem_cons] at h
        rcases h with h | h | h | h
        · exact absurd h (by simp)
        · injection h with e1 e2 e3 e4
          exact ⟨e1, e2, e3, by simp [e4]⟩
        · exact absurd h (by simp)
        · obtain ⟨e1, e2, e3, e4⟩ := ih h
          exact ⟨e1, e2, e3, by simp [e4]⟩
      · rw [transitionLoop_cons_hard env d c region n rest f hcf hf] at h
        simp only [List.mem_cons] at h
        rcases h with h | h | h
        · exact absurd h (by simp)
        · injection h with e1 e2 e3 e4
          exact ⟨e1, e2, e3, by simp [e4]⟩
        · simp at h

lemma transitionLoop_call_of_mem (env : Env) (d : Direction) (c : ResourceCategory) (region : String)
    (names : List String) (hb : ∀ n ∈ names, benignAt env d c region n)
    (i : String) (hi : i ∈ names) :
    Event.apiCall d c region i ∈ (transitionLoop env d c region names).1 := by
  induction names with
  | nil => simp at hi
  | cons n rest ih =>
    have hn := hb n (by simp)
    have hrest : ∀ m ∈ rest, benignAt env d c region m := fun m hm => hb m (by simp [hm])
    rcases List.mem_cons.mp hi with h | h
    · subst h
      rcases hn with hcf | hcf
      · rw [transitionLoop_cons_none env d c region i rest hcf]; simp
      · rw [transitionLoop_cons_caught env d c region i rest hcf]; simp
    · rcases hn with hcf | hcf
      · rw [transitionLoop_cons_none env d c region n rest hcf]
        simp only [List.mem_cons]
        exact Or.inr (Or.inr (Or.inr (ih hrest h)))
      · rw [transitionLoop_cons_caught env d c region n rest hcf]
        simp only [List.mem_cons]
        exact Or.inr (Or.inr (Or.inr (ih hrest h)))

lemma transitionLoop_warning_mem (env : Env) (d : Direction) (c : ResourceCategory) (region : String)
    (pre post : List String) (i : String) (hb : ∀ n ∈ pre, benignAt env d c region n)
    (hf : env.callFault d c region i = some (catchFault c)) :
    Event.log .warning (warnMsg d c i) ∈ (transitionLoop env d c region (pre ++ i :: post)).1 := by
  rw [transitionLoop_append env d c region pre (i :: post) hb]
  rw [transitionLoop_cons_caught env d c region i post hf]
  simp

lemma actionDirection_start (a : String) (h : a = "enable" ∨ a = "start") :
    actionDirection a = some Direction.start := by
  simp [actionDirection, h]

lemma actionDirection_stop (a : String) (h : a = "disable" ∨ a = "stop") :
    actionDirection a = some Direction.stop := by
  have hne : ¬(a = "enable" ∨ a = "start") := by
    rcases h with h | h <;> subst h <;> decide
  simp [actionDirection, hne, h]

lemma actionDirection_none (a : String)
    (h : a ≠ "enable" ∧ a ≠ "start" ∧ a ≠ "disable" ∧ a ≠ "stop") :
    actionDirection a = none := by
  obtain ⟨h1, h2, h3, h4⟩ := h
  simp [actionDirection, h1, h2, h3, h4]

lemma transitionBatch_eq (env : Env) (cfg : Config) (c : ResourceCategory) (r : String)
    (names : List String) :
    transitionBatch env cfg c r names =
      if names.length > 0 then
        match actionDirection cfg.ACTION with
        | some d => batchOf env d c r names
        | none => ([], none)
      else ([], none) := by
  by_cases hl : names.length > 0
  · by_cases h1 : cfg.ACTION = "enable" ∨ cfg.ACTION = "start"
    · rw [actionDirection_start cfg.ACTION h1]
      cases c <;> simp [transitionBatch, batchOf, hl, h1]
    · by_cases h2 : cfg.ACTION = "disable" ∨ cfg.ACTION = "stop"
      · rw [actionDirection_stop cfg.ACTION h2]
        cases c <;> simp [transitionBatch, batchOf, hl, h1, h2]
      · have : actionDirection cfg.ACTION = none := by
          simp [actionDirection, h1, h2]
        rw [this]
        simp [transitionBatch, hl, h1, h2]
  · simp [transitionBatch, hl]

lemma batchOf_unfold (env : Env) (d : Direction) (c : ResourceCategory) (r : String)
    (names : List String) :
    batchOf env d c r names =
      (Event.log .info (headerMsg d c) :: (transitionLoop env d c r names).1,
       (transitionLoop env d c r names).2) := by
  cases d <;> cases c <;>
    rfl

lemma transitionBatch_fault_none (env : Env) (cfg : Config) (c : ResourceCategory) (r : String)
    (names : List String) (hb : benign env) :
    (transitionBatch env cfg c r names).2 = none := by
  rw [transitionBatch_eq]
  by_cases hl : names.length > 0
  · rcases hd : actionDirection cfg.ACTION with _ | d
    · simp [hl]
    · simp only [hl, if_pos, hd, batchOf_unfold]
      exact transitionLoop_fault_none env d c r names (fun n _ => hb d c r n)
  · simp [hl]

lemma transitionBatch_count (env : Env) (cfg : Config) (c : ResourceCategory) (r : String)
    (names : List String) (hb : benign env)
    (d' : Direction) (c' : ResourceCategory) (r' i : String) :
    countCalls (transitionBatch env cfg c r names).1 d' c' r' i =
      if actionDirection cfg.ACTION = some d' ∧ c = c' ∧ r = r' then countOcc names i else 0 := by
  rw [transitionBatch_eq]
  by_cases hl : names.length > 0
  · rcases hd : actionDirection cfg.ACTION with _ | d
    · simp [hl, hd]
    · simp only [hl, if_pos, hd, batchOf_unfold, countCalls_cons_log]
      rw [transitionLoop_count env d c r names (fun n _ => hb d c r n)]
      by_cases hdd : d = d'
      · subst hdd
        simp
      · have h1 : ¬(d = d' ∧ c = c' ∧ r = r') := fun hc => hdd hc.1
        have h2 : ¬(some d = some d' ∧ c = c' ∧ r = r') := by
          intro hc
          exact hdd (Option.some_injective _ hc.1)
        simp [h1, h2]
  · have : names = [] := by
      cases names with
      | nil => rfl
      | cons a l => simp at hl
    subst this
    simp [hl]

lemma transitionBatch_call_mem (env : Env) (cfg : Config) (c : ResourceCategory) (r : String)
    (names : List String) (d' : Direction) (c' : ResourceCategory) (r' i : String)
    (h : Event.apiCall d' c' r' i ∈ (transitionBatch env cfg c r names).1) :
    c' = c ∧ r' = r ∧ i ∈ names ∧ actionDirection cfg.ACTION = some d' := by
  rw [transitionBatch_eq] at h
  by_cases hl : names.length > 0
  · rcases hd : actionDirection cfg.ACTION with _ | d
    · rw [hd] at h
      simp [hl] at h
    · rw [hd] at h
      simp only [hl, if_pos, batchOf_unfold] at h
      rcases List.mem_cons.mp h with h | h
      · exact absurd h (by simp)
      · obtain ⟨e1, e2, e3, e4⟩ := transitionLoop_call_mem env d c r names d' c' r' i h
        exact ⟨e2, e3, e4, by rw [e1]⟩
  · simp [hl] at h

lemma transitionBatch_call_of_mem (env : Env) (cfg : Config) (c : ResourceCategory) (r : String)
    (names : List String) (hb : benign env) (d : Direction)
    (hd : actionDirection cfg.ACTION = some d) (i : String) (hi : i ∈ names) :
    Event.apiCall d c r i ∈ (transitionBatch env cfg c r names).1 := by
  rw [transitionBatch_eq]
  have hl : names.length > 0 := by
    cases names with
    | nil => simp at hi
    | cons a l => simp
  rw [hd]
  simp only [hl, if_pos, batchOf_unfold]
  exact List.mem_cons_of_mem _
    (transitionLoop_call_of_mem env d c r names (fun n _ => hb d c r n) i hi)

lemma transitionBatch_warning_mem (env : Env) (cfg : Config) (c : ResourceCategory) (r : String)
    (pre post : List String) (i : String) (hb : benign env) (d : Direction)
    (hd : actionDirection cfg.ACTION = some d)
    (hf : env.callFault d c r i = some (catchFault c)) :
    Event.log .warning (warnMsg d c i) ∈ (transitionBatch env cfg c r (pre ++ i :: post)).1 := by
  rw [transitionBatch_eq]
  have hl : (pre ++ i :: post).length > 0 := by simp
  rw [hd]
  simp only [hl, if_pos, batchOf_unfold]
  exact List.mem_cons_of_mem _
    (transitionLoop_warning_mem env d c r pre post i (fun n _ => hb d c r n) hf)

lemma transitionBatch_hard (env : Env) (cfg : Config) (c : ResourceCategory) (r : String)
    (pre post : List String) (i : String) (d : Direction)
    (hd : actionDirection cfg.ACTION = some d)
    (hpre : ∀ n ∈ pre, benignAt env d c r n)
    (f : Fault) (hf : env.callFault d c r i = some f) (hfc : f ≠ catchFault c) :
    transitionBatch env cfg c r (pre ++ i :: post) =
      (Event.log .info (headerMsg d c) :: ((transitionLoop env d c r pre).1 ++
        [Event.log (attemptSev d) (attemptMsg d c i), Event.apiCall d c r i]), some f) := by
  rw [transitionBatch_eq]
  have hl : (pre ++ i :: post).length > 0 := by simp
  rw [hd]
  simp only [hl, if_pos, batchOf_unfold]
  rw [transitionLoop_append env d c r pre (i :: post) hpre,
    transitionLoop_cons_hard env d c r i post f hf hfc]

lemma execute_region_cases (env : Env) (cfg : Config) (r : String) :
    execute_region env cfg r =
      (match (transitionBatch env cfg ResourceCategory.db r (discovered env cfg r ResourceCategory.db)).2 with
       | some f =>
         (regionDbHead env cfg r ++
           (transitionBatch env cfg ResourceCategory.db r (discovered env cfg r ResourceCategory.db)).1,
          some f)
       | none =>
         (regionDbHead env cfg r ++
           (transitionBatch env cfg ResourceCategory.db r (discovered env cfg r ResourceCategory.db)).1 ++
           (regionClHead env cfg r ++
             (transitionBatch env cfg ResourceCategory.cluster r (discovered env cfg r ResourceCategory.cluster)).1),
          (transitionBatch env cfg ResourceCategory.cluster r (discovered env cfg r ResourceCategory.cluster)).2)) := rfl

lemma execute_region_ok (env : Env) (cfg : Config) (r : String)
    (hok : ∀ c, (transitionBatch env cfg c r (discovered env cfg r c)).2 = none) :
    execute_region env cfg r = (executeRegionSpec env cfg r, none) := by
  rw [execute_region_cases, hok ResourceCategory.db, hok ResourceCategory.cluster]
  simp [executeRegionSpec]

lemma execute_region_benign (env : Env) (cfg : Config) (r : String) (hb : benign env) :
    execute_region env cfg r = (executeRegionSpec env cfg r, none) :=
  execute_region_ok env cfg r
    (fun c => transitionBatch_fault_none env cfg c r (discovered env cfg r c) hb)

lemma countCalls_regionDbHead (env : Env) (cfg : Config) (r : String)
    (d : Direction) (c : ResourceCategory) (r' i : String) :
    countCalls (regionDbHead env cfg r) d c r' i = 0 := by
  simp [regionDbHead]

lemma countCalls_regionClHead (env : Env) (cfg : Config) (r : String)
    (d : Direction) (c : ResourceCategory) (r' i : String) :
    countCalls (regionClHead env cfg r) d c r' i = 0 := by
  simp [regionClHead]

lemma executeRegionSpec_count (env : Env) (cfg : Config) (r : String) (hb : benign env)
    (d : Direction) (c : ResourceCategory) (r' i : String) :
    countCalls (executeRegionSpec env cfg r) d c r' i =
      if actionDirection cfg.ACTION = some d ∧ r = r' then countOcc (discovered env cfg r c) i
      else 0 := by
  simp only [executeRegionSpec, countCalls_append, countCalls_regionDbHead, countCalls_regionClHead,
    transitionBatch_count env cfg ResourceCategory.db r (discovered env cfg r ResourceCategory.db) hb,
    transitionBatch_count env cfg ResourceCategory.cluster r (discovered env cfg r ResourceCategory.cluster) hb]
  cases c
  · by_cases h : actionDirection cfg.ACTION = some d ∧ r = r' <;>
      simp [h, fun hc : actionDirection cfg.ACTION = some d ∧ ResourceCategory.cluster = ResourceCategory.db ∧ r = r' => (by simp at hc : False)]
  · by_cases h : actionDirection cfg.ACTION = some d ∧ r = r' <;>
      simp [h, fun hc : actionDirection cfg.ACTION = some d ∧ ResourceCategory.db = ResourceCategory.cluster ∧ r = r' => (by simp at hc : False)]

lemma execute_region_count (env : Env) (cfg : Config) (r : String) (hb : benign env)
    (d : Direction) (c : ResourceCategory) (r' i : String) :
    countCalls (execute_region env cfg r).1 d c r' i =
      if actionDirection cfg.ACTION = some d ∧ r = r' then countOcc (discovered env cfg r c) i
      else 0 := by
  rw [execute_region_benign env cfg r hb]
  exact executeRegionSpec_count env cfg r hb d c r' i

lemma execute_region_call_mem (env : Env) (cfg : Config) (r : String)
    (d : Direction) (c : ResourceCategory) (r' i : String)
    (h : Event.apiCall d c r' i ∈ (execute_region env cfg r).1) :
    r' = r ∧ i ∈ discovered env cfg r c ∧ actionDirection cfg.ACTION = some d := by
  rw [execute_region_cases] at h
  have hdb : Event.apiCall d c r' i ∈
      (transitionBatch env cfg ResourceCategory.db r (discovered env cfg r ResourceCategory.db)).1 →
      r' = r ∧ i ∈ discovered env cfg r c ∧ actionDirection cfg.ACTION = some d := by
    intro hm
    obtain ⟨e1, e2, e3, e4⟩ := transitionBatch_call_mem env cfg ResourceCategory.db r _ d c r' i hm
    subst e1
    exact ⟨e2, e3, e4⟩
  have hcl : Event.apiCall d c r' i ∈
      (transitionBatch env cfg ResourceCategory.cluster r (discovered env cfg r ResourceCategory.cluster)).1 →
      r' = r ∧ i ∈ discovered env cfg r c ∧ actionDirection cfg.ACTION = some d := by
    intro hm
    obtain ⟨e1, e2, e3, e4⟩ := transitionBatch_call_mem env cfg ResourceCategory.cluster r _ d c r' i hm
    subst e1
    exact ⟨e2, e3, e4⟩
  rcases hf : (transitionBatch env cfg ResourceCategory.db r (discovered env cfg r ResourceCategory.db)).2 with _ | f
  · rw [hf] at h
    simp only [List.mem_append, regionDbHead, regionClHead, List.mem_cons] at h
    rcases h with ((h | h | h | h) | hm) | (h | h | h | h) | hm
    · exact absurd h (by simp)
    · exact absurd h (by simp)
    · exact absurd h (by simp)
    · exact absurd h (by simp)
    · exact hdb hm
    · exact absurd h (by simp)
    · exact absurd h (by simp)
    · exact absurd h (by simp)
    · exact absurd h (by simp)
    · exact hcl hm
  · rw [hf] at h
    simp only [List.mem_append, regionDbHead, List.mem_cons] at h
    rcases h with (h | h | h | h) | hm
    · exact absurd h (by simp)
    · exact absurd h (by simp)
    · exact absurd h (by simp)
    · exact absurd h (by simp)
    · exact hdb hm

lemma run_regions_ok (env : Env) (cfg : Config) (rs : List String)
    (hok : ∀ r c, (transitionBatch env cfg c r (discovered env cfg r c)).2 = none) :
    run_regions env cfg rs = (traceConcat (executeRegionSpec env cfg) rs, none) := by
  induction rs with
  | nil => rfl
  | cons r rest ih =>
    show (match (execute_region env cfg r).2 with
      | some f => ((execute_region env cfg r).1, some f)
      | none =>
        ((execute_region env cfg r).1 ++ (run_regions env cfg rest).1,
         (run_regions env cfg rest).2)) = _
    rw [execute_region_ok env cfg r (hok r), ih]
    simp [traceConcat]

lemma run_regions_benign (env : Env) (cfg : Config) (rs : List String) (hb : benign env) :
    run_regions env cfg rs = (traceConcat (executeRegionSpec env cfg) rs, none) :=
  run_regions_ok env cfg rs
    (fun r c => transitionBatch_fault_none env cfg c r (discovered env cfg r c) hb)

lemma traceConcat_count (env : Env) (cfg : Config) (rs : List String) (hb : benign env)
    (d : Direction) (c : ResourceCategory) (r' i : String) :
    countCalls (traceConcat (executeRegionSpec env cfg) rs) d c r' i =
      countOcc rs r' *
        (if actionDirection cfg.ACTION = some d then countOcc (discovered env cfg r' c) i else 0) := by
  induction rs with
  | nil => simp [traceConcat]
  | cons r rest ih =>
    simp only [traceConcat, countCalls_append, countOcc_cons, ih,
      executeRegionSpec_count env cfg r hb d c r' i]
    by_cases hr : r = r'
    · subst hr
      by_cases hd : actionDirection cfg.ACTION = some d <;>
        simp [hd, Nat.add_mul]
    · have : ¬(actionDirection cfg.ACTION = some d ∧ r = r') := fun hc => hr hc.2
      simp [this, hr]

lemma run_regions_count (env : Env) (cfg : Config) (rs : List String) (hb : benign env)
    (d : Direction) (c : ResourceCategory) (r' i : String) :
    countCalls (run_regions env cfg rs).1 d c r' i =
      countOcc rs r' *
        (if actionDirection cfg.ACTION = some d then countOcc (discovered env cfg r' c) i else 0) := by
  rw [run_regions_benign env cfg rs hb]
  exact traceConcat_count env cfg rs hb d c r' i

lemma run_regions_call_mem (env : Env) (cfg : Config) (rs : List String)
    (d : Direction) (c : ResourceCategory) (r' i : String)
    (h : Event.apiCall d c r' i ∈ (run_regions env cfg rs).1) :
    r' ∈ rs ∧ i ∈ discovered env cfg r' c ∧ actionDirection cfg.ACTION = some d := by
  induction rs with
  | nil => simp [run_regions] at h
  | cons r rest ih =>
    have hshape : (run_regions env cfg (r :: rest)).1 = (execute_region env cfg r).1 ∨
        (run_regions env cfg (r :: rest)).1 =
          (execute_region env cfg r).1 ++ (run_regions env cfg rest).1 := by
      show (match (execute_region env cfg r).2 with
        | some f => ((execute_region env cfg r).1, some f)
        | none =>
          ((execute_region env cfg r).1 ++ (run_regions env cfg rest).1,
           (run_regions env cfg rest).2)).1 = _ ∨
        (match (execute_region env cfg r).2 with
        | some f => ((execute_region env cfg r).1, some f)
        | none =>
          ((execute_region env cfg r).1 ++ (run_regions env cfg rest).1,
           (run_regions env cfg rest).2)).1 = _
      rcases (execute_region env cfg r).2 with _ | f
      · simp
      · simp
    rcases hshape with hs | hs
    · rw [hs] at h
      obtain ⟨e1, e2, e3⟩ := execute_region_call_mem env cfg r d c r' i h
      subst e1
      exact ⟨by simp, e2, e3⟩
    · rw [hs] at h
      rcases List.mem_append.mp h with hm | hm
      · obtain ⟨e1, e2, e3⟩ := execute_region_call_mem env cfg r d c r' i hm
        subst e1
        exact ⟨by simp, e2, e3⟩
      · obtain ⟨e1, e2, e3⟩ := ih hm
        exact ⟨by simp [e1], e2, e3⟩

lemma run_regions_append (env : Env) (cfg : Config) (l1 l2 : List String)
    (h : (run_regions env cfg l1).2 = none) :
    run_regions env cfg (l1 ++ l2) =
      ((run_regions env cfg l1).1 ++ (run_regions env cfg l2).1,
       (run_regions env cfg l2).2) := by
  induction l1 with
  | nil => simp [run_regions]
  | cons r rest ih =>
    rcases hr : (execute_region env cfg r).2 with _ | f
    · have hrest : (run_regions env cfg rest).2 = none := by
        by_contra hc
        rcases hne : (run_regions env cfg rest).2 with _ | f2
        · exact hc hne
        · have : (run_regions env cfg (r :: rest)).2 = some f2 := by
            show (match (execute_region env cfg r).2 with
              | some f => ((execute_region env cfg r).1, some f)
              | none =>
                ((execute_region env cfg r).1 ++ (run_regions env cfg rest).1,
                 (run_regions env cfg rest).2)).2 = some f2
            rw [hr]
            exact hne
          rw [h] at this
          exact Option.noConfusion this
      have e1 : run_regions env cfg (r :: (rest ++ l2)) =
          ((execute_region env cfg r).1 ++ (run_regions env cfg (rest ++ l2)).1,
           (run_regions env cfg (rest ++ l2)).2) := by
        show (match (execute_region env cfg r).2 with
          | some f => ((execute_region env cfg r).1, some f)
          | none =>
            ((execute_region env cfg r).1 ++ (run_regions env cfg (rest ++ l2)).1,
             (run_regions env cfg (rest ++ l2)).2)) = _
        rw [hr]
      have e2 : run_regions env cfg (r :: rest) =
          ((execute_region env cfg r).1 ++ (run_regions env cfg rest).1,
           (run_regions env cfg rest).2) := by
        show (match (execute_region env cfg r).2 with
          | some f => ((execute_region env cfg r).1, some f)
          | none =>
            ((execute_region env cfg r).1 ++ (run_regions env cfg rest).1,
             (run_regions env cfg rest).2)) = _
        rw [hr]
      rw [List.cons_append, e1, ih hrest, e2]
      simp
    · exfalso
      have : (run_regions env cfg (r :: rest)).2 = some f := by
        show (match (execute_region env cfg r).2 with
          | some f => ((execute_region env cfg r).1, some f)
          | none =>
            ((execute_region env cfg r).1 ++ (run_regions env cfg rest).1,
             (run_regions env cfg rest).2)).2 = some f
        rw [hr]
      rw [h] at this
      exact Option.noConfusion this

lemma run_regions_cons_hard (env : Env) (cfg : Config) (r : String) (rest : List String)
    (f : Fault) (hr : (execute_region env cfg r).2 = some f) :
    run_regions env cfg (r :: rest) = ((execute_region env cfg r).1, some f) := by
  show (match (execute_region env cfg r).2 with
    | some f => ((execute_region env cfg r).1, some f)
    | none =>
      ((execute_region env cfg r).1 ++ (run_regions env cfg rest).1,
       (run_regions env cfg rest).2)) = _
  rw [hr]

lemma execute_ok (env : Env) (cfg : Config)
    (hok : ∀ r c, (transitionBatch env cfg c r (discovered env cfg r c)).2 = none) :
    execute env cfg =
      (Event.log .info "Starting the operation." ::
        (traceConcat (executeRegionSpec env cfg) (AWS_REGIONS cfg) ++
          [Event.log .info "Operation completed successfully."]),
       Except.ok build_response_ok) := by
  show (match (run_regions env cfg (AWS_REGIONS cfg)).2 with
    | some f =>
      (Event.log .info "Starting the operation." :: (run_regions env cfg (AWS_REGIONS cfg)).1,
       Except.error f)
    | none =>
      (Event.log .info "Starting the operation." ::
        ((run_regions env cfg (AWS_REGIONS cfg)).1 ++ [Event.log .info "Operation completed successfully."]),
       Except.ok build_response_ok)) = _
  rw [run_regions_ok env cfg (AWS_REGIONS cfg) hok]

lemma execute_benign (env : Env) (cfg : Config) (hb : benign env) :
    execute env cfg =
      (Event.log .info "Starting the operation." ::
        (traceConcat (executeRegionSpec env cfg) (AWS_REGIONS cfg) ++
          [Event.log .info "Operation completed successfully."]),
       Except.ok build_response_ok) :=
  execute_ok env cfg
    (fun r c => transitionBatch_fault_none env cfg c r (discovered env cfg r c) hb)

lemma execute_hard (env : Env) (cfg : Config) (f : Fault)
    (hf : (run_regions env cfg (AWS_REGIONS cfg)).2 = some f) :
    execute env cfg =
      (Event.log .info "Starting the operation." :: (run_regions env cfg (AWS_REGIONS cfg)).1,
       Except.error f) := by
  show (match (run_regions env cfg (AWS_REGIONS cfg)).2 with
    | some f =>
      (Event.log .info "Starting the operation." :: (run_regions env cfg (AWS_REGIONS cfg)).1,
       Except.error f)
    | none =>
      (Event.log .info "Starting the operation." ::
        ((run_regions env cfg (AWS_REGIONS cfg)).1 ++ [Event.log .info "Operation completed successfully."]),
       Except.ok build_response_ok)) = _
  rw [hf]

lemma transitionBatch_none_dir (env : Env) (cfg : Config) (c : ResourceCategory) (r : String)
    (names : List String) (hd : actionDirection cfg.ACTION = none) :
    transitionBatch env cfg c r names = ([], none) := by
  rw [transitionBatch_eq, hd]
  by_cases hl : names.length > 0 <;> simp [hl]

lemma mem_traceConcat_of_mem (f : String → List Event) (rs : List String) (r : String)
    (hr : r ∈ rs) (a : Event) (ha : a ∈ f r) : a ∈ traceConcat f rs := by
  induction rs with
  | nil => simp at hr
  | cons x rest ih =>
    rcases List.mem_cons.mp hr with h | h
    · subst h
      exact List.mem_append.mpr (Or.inl ha)
    · exact List.mem_append.mpr (Or.inr (ih h))

lemma discover_db_mem_spec (env : Env) (cfg : Config) (r : String) :
    Event.discover r "rds:db" ∈ executeRegionSpec env cfg r := by
  simp [executeRegionSpec, regionDbHead]

lemma discover_cluster_mem_spec (env : Env) (cfg : Config) (r : String) :
    Event.discover r "rds:cluster" ∈ executeRegionSpec env cfg r := by
  simp [executeRegionSpec, regionClHead]

lemma search_db_mem_spec (env : Env) (cfg : Config) (r : String) :
    Event.log .info (searchMsg "databases" cfg r) ∈ executeRegionSpec env cfg r := by
  simp [executeRegionSpec, regionDbHead]

lemma search_cluster_mem_spec (env : Env) (cfg : Config) (r : String) :
    Event.log .info (searchMsg "clusters" cfg r) ∈ executeRegionSpec env cfg r := by
  simp [executeRegionSpec, regionClHead]

lemma execute_call_mem (env : Env) (cfg : Config)
    (d : Direction) (c : ResourceCategory) (r' i : String)
    (h : Event.apiCall d c r' i ∈ (execute env cfg).1) :
    r' ∈ AWS_REGIONS cfg ∧ i ∈ discovered env cfg r' c ∧ actionDirection cfg.ACTION = some d := by
  have hshape : (execute env cfg).1 = Event.log .info "Starting the operation." ::
        (run_regions env cfg (AWS_REGIONS cfg)).1 ∨
      (execute env cfg).1 = Event.log .info "Starting the operation." ::
        ((run_regions env cfg (AWS_REGIONS cfg)).1 ++ [Event.log .info "Operation completed successfully."]) := by
    show (match (run_regions env cfg (AWS_REGIONS cfg)).2 with
      | some f =>
        (Event.log .info "Starting the operation." :: (run_regions env cfg (AWS_REGIONS cfg)).1,
         Except.error f)
      | none =>
        (Event.log .info "Starting the operation." ::
          ((run_regions env cfg (AWS_REGIONS cfg)).1 ++ [Event.log .info "Operation completed successfully."]),
         Except.ok build_response_ok)).1 = _ ∨
      (match (run_regions env cfg (AWS_REGIONS cfg)).2 with
      | some f =>
        (Event.log .info "Starting the operation." :: (run_regions env cfg (AWS_REGIONS cfg)).1,
         Except.error f)
      | none =>
        (Event.log .info "Starting the operation." ::
          ((run_regions env cfg (AWS_REGIONS cfg)).1 ++ [Event.log .info "Operation completed successfully."]),
         Except.ok build_response_ok)).1 = _
    rcases (run_regions env cfg (AWS_REGIONS cfg)).2 with _ | f
    · simp
    · simp
  rcases hshape with hs | hs
  · rw [hs] at h
    rcases List.mem_cons.mp h with hc | hm
    · exact absurd hc (by simp)
    · exact run_regions_call_mem env cfg (AWS_REGIONS cfg) d c r' i hm
  · rw [hs] at h
    rcases List.mem_cons.mp h with hc | hm
    · exact absurd hc (by simp)
    · rcases List.mem_append.mp hm with hm2 | hm2
      · exact run_regions_call_mem env cfg (AWS_REGIONS cfg) d c r' i hm2
      · simp at hm2

lemma execute_count (env : Env) (cfg : Config) (hb : benign env)
    (d : Direction) (c : ResourceCategory) (r i : String) :
    countCalls (execute env cfg).1 d c r i =
      countOcc (AWS_REGIONS cfg) r *
        (if actionDirection cfg.ACTION = some d then countOcc (discovered env cfg r c) i else 0) := by
  rw [execute_benign env cfg hb]
  dsimp only
  simp only [countCalls_cons_log, countCalls_append]
  rw [traceConcat_count env cfg (AWS_REGIONS cfg) hb d c r i]
  simp

lemma splitChars_ne_nil (sep : Char) (cs : List Char) : splitChars sep cs ≠ [] := by
  cases cs with
  | nil => simp [splitChars]
  | cons c cs =>
    rcases h : splitChars sep cs with _ | ⟨seg, rest⟩
    · simp [splitChars, h]
    · by_cases hc : c = sep <;> simp [splitChars, h, hc]

lemma afterLastSep_not_mem (sep : Char) (cs : List Char) (h : sep ∉ cs) :
    afterLastSep sep cs = cs := by
  cases cs with
  | nil => rfl
  | cons c cs =>
    have h1 : sep ∉ cs := fun hm => h (List.mem_cons_of_mem c hm)
    have h2 : ¬c = sep := fun hc => h (by simp [hc])
    simp [afterLastSep, h1, h2]

lemma splitChars_not_mem (sep : Char) (cs : List Char) (h : sep ∉ cs) :
    splitChars sep cs = [cs] := by
  induction cs with
  | nil => rfl
  | cons c cs ih =>
    have h1 : sep ∉ cs := fun hm => h (List.mem_cons_of_mem c hm)
    have h2 : ¬c = sep := fun hc => h (by simp [hc])
    simp [splitChars, ih h1, h2]

lemma splitChars_length_two (sep : Char) (cs : List Char) (h : sep ∈ cs) :
    2 ≤ (splitChars sep cs).length := by
  induction cs with
  | nil => simp at h
  | cons c cs ih =>
    rcases hs : splitChars sep cs with _ | ⟨seg, rest⟩
    · exact absurd hs (splitChars_ne_nil sep cs)
    · by_cases hc : c = sep
      · simp [splitChars, hs, hc]
      · have hm : sep ∈ cs := by
          rcases List.mem_cons.mp h with h1 | h1
          · exact absurd h1.symm hc
          · exact h1
        have := ih hm
        rw [hs] at this
        cases rest with
        | nil => simp at this
        | cons r rs => simp [splitChars, hs, hc]

lemma splitChars_getLastD (sep : Char) (cs : List Char) :
    (splitChars sep cs).getLastD [] = afterLastSep sep cs := by
  induction cs with
  | nil => rfl
  | cons c cs ih =>
    by_cases hm : sep ∈ cs
    · have h2 := splitChars_length_two sep cs hm
      rcases hs : splitChars sep cs with _ | ⟨seg, rest⟩
      · exact absurd hs (splitChars_ne_nil sep cs)
      · rw [hs] at h2
        cases rest with
        | nil => simp at h2
        | cons r rs =>
          rw [hs] at ih
          have hAfter : afterLastSep sep (c :: cs) = afterLastSep sep cs := by
            simp [afterLastSep, hm]
          rw [hAfter, ← ih]
          by_cases hc : c = sep
          · simp [splitChars, hs, hc, List.getLastD_cons]
          · simp [splitChars, hs, hc, List.getLastD_cons]
    · have hs := splitChars_not_mem sep cs hm
      by_cases hc : c = sep
      · rw [afterLastSep_not_mem sep cs hm] at ih
        simp [splitChars, hs, hc, afterLastSep, hm, List.getLastD_cons]
      · simp [splitChars, hs, hc, afterLastSep, hm, List.getLastD_cons]

lemma getLastD_map {α β : Type} (f : α → β) (l : List α) (d : α) (h : l ≠ []) :
    (l.map f).getLastD (f d) = f (l.getLastD d) := by
  induction l generalizing d with
  | nil => exact absurd rfl h
  | cons a l ih =>
    cases l with
    | nil => simp
    | cons b m =>
      rw [List.map_cons, List.getLastD_cons, List.getLastD_cons]
      exact ih a (by simp)

lemma extractIdentifier_eq_spec (arn : String) :
    extractIdentifier arn = identifierSpec arn := by
  have h := splitChars_ne_nil ':' arn.data
  have e : ("" : String) = String.mk [] := rfl
  rw [extractIdentifier, pySplit, e, getLastD_map String.mk _ [] h, splitChars_getLastD]
  rfl

lemma foldl_extract_inner (page : List String) :
    ∀ acc : List String,
      page.foldl (fun acc2 arn => acc2 ++ [extractIdentifier arn]) acc =
        acc ++ page.map extractIdentifier := by
  induction page with
  | nil => intro acc; simp
  | cons a p ih =>
    intro acc
    rw [List.foldl_cons, ih (acc ++ [extractIdentifier a]), List.map_cons, List.append_assoc]
    rfl

lemma foldl_extract_outer (pages : List (List String)) :
    ∀ acc : List String,
      pages.foldl (fun acc page => page.foldl (fun acc2 arn => acc2 ++ [extractIdentifier arn]) acc) acc =
        acc ++ pages.flatMap (fun page => page.map extractIdentifier) := by
  induction pages with
  | nil => intro acc; simp
  | cons p ps ih =>
    intro acc
    rw [List.foldl_cons, ih _, foldl_extract_inner p acc]
    simp [List.flatMap]

lemma get_resource_identifiers_eq_flatMap (env : Env) (r t k v : String) :
    get_resource_identifiers_by_tag env r t k v =
      (env.discoverPages r t k v).flatMap (fun page => page.map extractIdentifier) := by
  rw [get_resource_identifiers_by_tag, foldl_extract_outer]
  rfl

/-- C7: for every resource returned by the tagging API, the identifier
discovery produces is the substring of the resource's ARN after the
last colon: the extraction used by `_get_resource_identifiers_by_tag`
(split on the colon, take the final segment) agrees with the after-last-
colon specification on every string, and the discovery result is the
image of the flattened page contents under that extraction. -/
theorem claim_C7_identifier_last_segment :
    (∀ arn : String, extractIdentifier arn = identifierSpec arn) ∧
      ∀ (env : Env) (r t k v : String),
        get_resource_identifiers_by_tag env r t k v =
          ((env.discoverPages r t k v).flatten).map identifierSpec := by
  refine ⟨extractIdentifier_eq_spec, fun env r t k v => ?_⟩
  rw [get_resource_identifiers_eq_flatMap, List.flatMap]
  have : ∀ pages : List (List String),
      (pages.map (fun page => page.map extractIdentifier)).flatten =
        pages.flatten.map identifierSpec := by
    intro pages
    induction pages with
    | nil => rfl
    | cons p ps ih =>
      simp only [List.map_cons, List.flatten_cons, ih, List.map_append]
      congr 1
      exact List.map_congr_left (fun arn _ => extractIdentifier_eq_spec arn)
  exact this _

/-- C8: the discovery result is the concatenation, in page order and
within-page order, of the extracted identifiers of every page — no
reordering and no deduplication (illustrated by an environment whose
pages carry three resources whose ARNs share the same final segment). -/
theorem claim_C8_page_concatenation :
    (∀ (env : Env) (r t k v : String),
      get_resource_identifiers_by_tag env r t k v =
        (env.discoverPages r t k v).flatMap (fun page => page.map extractIdentifier)) ∧
      get_resource_identifiers_by_tag
        ⟨fun _ _ _ _ => [["a:x", "b:x"], ["c:x"]], fun _ _ _ _ => none⟩ "r" "rds:db" "k" "v" =
        ["x", "x", "x"] := by
  exact ⟨fun env r t k v => get_resource_identifiers_eq_flatMap env r t k v, by decide⟩

/-- C1: when the configured action is `start` or `enable`, every
identifier discovered for a region and category receives exactly one
start call of its category per occurrence (per occurrence of the region
in the configured list) and never a stop call; symmetrically for `stop`
or `disable`. Stated for environments whose remote calls never raise an
uncaught fault class. -/
theorem claim_C1_fixed_direction (env : Env) (cfg : Config) (hb : benign env) :
    ((cfg.ACTION = "start" ∨ cfg.ACTION = "enable") →
      ∀ (c : ResourceCategory) (r i : String),
        countCalls (execute env cfg).1 Direction.stop c r i = 0 ∧
        countCalls (execute env cfg).1 Direction.start c r i =
          countOcc (AWS_REGIONS cfg) r * countOcc (discovered env cfg r c) i) ∧
    ((cfg.ACTION = "stop" ∨ cfg.ACTION = "disable") →
      ∀ (c : ResourceCategory) (r i : String),
        countCalls (execute env cfg).1 Direction.start c r i = 0 ∧
        countCalls (execute env cfg).1 Direction.stop c r i =
          countOcc (AWS_REGIONS cfg) r * countOcc (discovered env cfg r c) i) := by
  constructor
  · intro ha c r i
    have hd : actionDirection cfg.ACTION = some Direction.start :=
      actionDirection_start cfg.ACTION ha.symm
    constructor
    · rw [execute_count env cfg hb Direction.stop c r i, hd]
      simp
    · rw [execute_count env cfg hb Direction.start c r i, hd]
      simp
  · intro ha c r i
    have hd : actionDirection cfg.ACTION = some Direction.stop :=
      actionDirection_stop cfg.ACTION ha.symm
    constructor
    · rw [execute_count env cfg hb Direction.start c r i, hd]
      simp
    · rw [execute_count env cfg hb Direction.stop c r i, hd]
      simp

/-- Witness for C1: one region, one discovered instance, action `start`:
no stop call, and the number of start calls is the predicted product,
which evaluates to one. -/
theorem claim_C1_fixed_direction_witness :
    (countCalls (execute envAllOk cfgStart).1 Direction.stop ResourceCategory.db "r1" "x" = 0 ∧
      countCalls (execute envAllOk cfgStart).1 Direction.start ResourceCategory.db "r1" "x" =
        countOcc (AWS_REGIONS cfgStart) "r1" *
          countOcc (discovered envAllOk cfgStart "r1" ResourceCategory.db) "x") ∧
      countOcc (AWS_REGIONS cfgStart) "r1" *
        countOcc (discovered envAllOk cfgStart "r1" ResourceCategory.db) "x" = 1 :=
  ⟨(claim_C1_fixed_direction envAllOk cfgStart (fun _ _ _ _ => Or.inl rfl)).1
      (Or.inl rfl) ResourceCategory.db "r1" "x",
   by decide⟩

/-- C4: when the configured action is none of `start`, `stop`, `enable`,
`disable`, discovery still runs and is logged for both categories in
every configured region, no start/stop call is issued for any resource
in any region, and the invocation still ends with the success response. -/
theorem claim_C4_unrecognized_action_noop (env : Env) (cfg : Config)
    (ha : cfg.ACTION ≠ "start" ∧ cfg.ACTION ≠ "stop" ∧
      cfg.ACTION ≠ "enable" ∧ cfg.ACTION ≠ "disable") :
    (∀ r ∈ AWS_REGIONS cfg,
      Event.log .info (searchMsg "databases" cfg r) ∈ (execute env cfg).1 ∧
      Event.discover r "rds:db" ∈ (execute env cfg).1 ∧
      Event.log .info (searchMsg "clusters" cfg r) ∈ (execute env cfg).1 ∧
      Event.discover r "rds:cluster" ∈ (execute env cfg).1) ∧
    (∀ (d : Direction) (c : ResourceCategory) (r i : String),
      Event.apiCall d c r i ∉ (execute env cfg).1) ∧
    (execute env cfg).2 = Except.ok build_response_ok := by
  have hd : actionDirection cfg.ACTION = none :=
    actionDirection_none cfg.ACTION ⟨ha.2.2.1, ha.1, ha.2.2.2, ha.2.1⟩
  have hok : ∀ r c, (transitionBatch env cfg c r (discovered env cfg r c)).2 = none := by
    intro r c
    rw [transitionBatch_none_dir env cfg c r _ hd]
  refine ⟨?_, ?_, ?_⟩
  · intro r hr
    rw [execute_ok env cfg hok]
    refine ⟨?_, ?_, ?_, ?_⟩ <;>
      exact List.mem_cons_of_mem _ (List.mem_append.mpr (Or.inl
        (mem_traceConcat_of_mem _ _ r hr _ (by
          first
            | exact search_db_mem_spec env cfg r
            | exact discover_db_mem_spec env cfg r
            | exact search_cluster_mem_spec env cfg r
            | exact discover_cluster_mem_spec env cfg r))))
  · intro d c r i hmem
    obtain ⟨h1, h2, h3⟩ := execute_call_mem env cfg d c r i hmem
    rw [hd] at h3
    exact Option.noConfusion h3
  · rw [execute_ok env cfg hok]

/-- Witness for C4: action `destroy`, one region with one tagged
resource: discovery events are present, no start call is issued, and the
result is the success response. -/
theorem claim_C4_unrecognized_action_noop_witness :
    Event.discover "r1" "rds:db" ∈ (execute envAllOk cfgOther).1 ∧
    Event.discover "r1" "rds:cluster" ∈ (execute envAllOk cfgOther).1 ∧
    Event.apiCall Direction.start ResourceCategory.db "r1" "x" ∉ (execute envAllOk cfgOther).1 ∧
    (execute envAllOk cfgOther).2 = Except.ok build_response_ok := by
  have h := claim_C4_unrecognized_action_noop envAllOk cfgOther
    (by refine ⟨?_, ?_, ?_, ?_⟩ <;> decide)
  have hr : "r1" ∈ AWS_REGIONS cfgOther := by decide
  exact ⟨(h.1 "r1" hr).2.1, (h.1 "r1" hr).2.2.2,
    h.2.1 Direction.start ResourceCategory.db "r1" "x", h.2.2⟩

/-- C5: in an invocation whose remote faults are all of the caught
class, the trace is exactly: the start log, then for each configured
region in order the block "search/discover/found instances, instance
transitions, search/discover/found clusters, cluster transitions", then
the completion log; and the result is the success response. -/
theorem claim_C5_sequential_order (env : Env) (cfg : Config) (hb : benign env) :
    (execute env cfg).1 =
      Event.log .info "Starting the operation." ::
        (traceConcat (executeRegionSpec env cfg) (AWS_REGIONS cfg) ++
          [Event.log .info "Operation completed successfully."]) ∧
    (execute env cfg).2 = Except.ok build_response_ok := by
  rw [execute_benign env cfg hb]
  exact ⟨rfl, rfl⟩

/-- Witness for C5: a concrete two-region invocation in which every call
raises the caught invalid-state fault still produces the spec-shaped
trace and the success response. -/
theorem claim_C5_sequential_order_witness :
    (execute envAllInvalid cfgStop2).1 =
      Event.log .info "Starting the operation." ::
        (traceConcat (executeRegionSpec envAllInvalid cfgStop2) (AWS_REGIONS cfgStop2) ++
          [Event.log .info "Operation completed successfully."]) ∧
    (execute envAllInvalid cfgStop2).2 = Except.ok build_response_ok :=
  claim_C5_sequential_order envAllInvalid cfgStop2 (fun _ _ _ _ => Or.inr rfl)

/-- C6: if discovery for one region and category returns no identifiers,
no start or stop call of that category is issued for that region, in any
environment and configuration. -/
theorem claim_C6_empty_discovery_no_calls (env : Env) (cfg : Config) (r : String)
    (c : ResourceCategory) (h : discovered env cfg r c = []) :
    ∀ (d : Direction) (i : String), Event.apiCall d c r i ∉ (execute env cfg).1 := by
  intro d i hmem
  obtain ⟨h1, h2, h3⟩ := execute_call_mem env cfg d c r i hmem
  rw [h] at h2
  simp at h2

/-- Witness for C6: empty discovery in a concrete environment with
action `start` yields no start call for the region. -/
theorem claim_C6_empty_discovery_no_calls_witness :
    Event.apiCall Direction.start ResourceCategory.db "r1" "x" ∉ (execute envEmpty cfgStart).1 :=
  claim_C6_empty_discovery_no_calls envEmpty cfgStart "r1" ResourceCategory.db (by decide)
    Direction.start "x"

/-- C2: an identifier whose transition call raises the caught
invalid-state fault does not abort the batch: the fault is caught, the
warning is logged, every subsequent identifier of the batch still
receives its call (shown for `_stop_database_instances` and
`_start_database_clusters`, the two operations the claim cites), every
configured region is still processed, and the invocation ends with the
success response. -/
theorem claim_C2_invalid_state_isolated (env : Env) (cfg : Config) (hb : benign env)
    (r i : String) (pre post : List String)
    (hfi : env.callFault Direction.stop ResourceCategory.db r i =
      some Fault.invalidDBInstanceState)
    (hfc : env.callFault Direction.start ResourceCategory.cluster r i =
      some Fault.invalidDBClusterState) :
    ((stop_database_instances env r (pre ++ i :: post)).2 = none ∧
      Event.log .warning (warnMsg Direction.stop ResourceCategory.db i) ∈
        (stop_database_instances env r (pre ++ i :: post)).1 ∧
      ∀ j ∈ post, Event.apiCall Direction.stop ResourceCategory.db r j ∈
        (stop_database_instances env r (pre ++ i :: post)).1) ∧
    ((start_database_clusters env r (pre ++ i :: post)).2 = none ∧
      Event.log .warning (warnMsg Direction.start ResourceCategory.cluster i) ∈
        (start_database_clusters env r (pre ++ i :: post)).1 ∧
      ∀ j ∈ post, Event.apiCall Direction.start ResourceCategory.cluster r j ∈
        (start_database_clusters env r (pre ++ i :: post)).1) ∧
    ((execute env cfg).2 = Except.ok build_response_ok ∧
      ∀ r' ∈ AWS_REGIONS cfg, Event.discover r' "rds:db" ∈ (execute env cfg).1) := by
  refine ⟨⟨?_, ?_, ?_⟩, ⟨?_, ?_, ?_⟩, ?_, ?_⟩
  · exact transitionLoop_fault_none env Direction.stop ResourceCategory.db r _
      (fun n _ => hb Direction.stop ResourceCategory.db r n)
  · exact List.mem_cons_of_mem _
      (transitionLoop_warning_mem env Direction.stop ResourceCategory.db r pre post i
        (fun n _ => hb Direction.stop ResourceCategory.db r n) hfi)
  · intro j hj
    exact List.mem_cons_of_mem _
      (transitionLoop_call_of_mem env Direction.stop ResourceCategory.db r _
        (fun n _ => hb Direction.stop ResourceCategory.db r n) j (by simp [hj]))
  · exact transitionLoop_fault_none env Direction.start ResourceCategory.cluster r _
      (fun n _ => hb Direction.start ResourceCategory.cluster r n)
  · exact List.mem_cons_of_mem _
      (transitionLoop_warning_mem env Direction.start ResourceCategory.cluster r pre post i
        (fun n _ => hb Direction.start ResourceCategory.cluster r n) hfc)
  · intro j hj
    exact List.mem_cons_of_mem _
      (transitionLoop_call_of_mem env Direction.start ResourceCategory.cluster r _
        (fun n _ => hb Direction.start ResourceCategory.cluster r n) j (by simp [hj]))
  · rw [execute_benign env cfg hb]
  · intro r' hr'
    rw [execute_benign env cfg hb]
    exact List.mem_cons_of_mem _ (List.mem_append.mpr (Or.inl
      (mem_traceConcat_of_mem _ _ r' hr' _ (discover_db_mem_spec env cfg r'))))

/-- Witness for C2: every call raises the caught invalid-state fault;
for the batch `["x", "y"]` in region `r1` the warning for `x` is logged,
`y` still receives its stop call, and the two-region invocation ends
with the success response. -/
theorem claim_C2_invalid_state_isolated_witness :
    Event.log .warning (warnMsg Direction.stop ResourceCategory.db "x") ∈
      (stop_database_instances envAllInvalid "r1" ([] ++ "x" :: ["y"])).1 ∧
    Event.apiCall Direction.stop ResourceCategory.db "r1" "y" ∈
      (stop_database_instances envAllInvalid "r1" ([] ++ "x" :: ["y"])).1 ∧
    (execute envAllInvalid cfgStop2).2 = Except.ok build_response_ok := by
  have h := claim_C2_invalid_state_isolated envAllInvalid cfgStop2
    (fun _ _ _ _ => Or.inr rfl) "r1" "x" [] ["y"] rfl rfl
  exact ⟨h.1.2.1, h.1.2.2 "y" (by decide), h.2.2.1⟩

lemma execute_region_hard (env : Env) (cfg : Config) (r : String) (d : Direction)
    (hd : actionDirection cfg.ACTION = some d)
    (pre post : List String) (i : String)
    (hdisc : discovered env cfg r ResourceCategory.db = pre ++ i :: post)
    (hpre : ∀ n ∈ pre, benignAt env d ResourceCategory.db r n)
    (f : Fault) (hf : env.callFault d ResourceCategory.db r i = some f)
    (hfc : f ≠ catchFault ResourceCategory.db) :
    execute_region env cfg r =
      (regionDbHead env cfg r ++
        (Event.log .info (headerMsg d ResourceCategory.db) ::
          ((transitionLoop env d ResourceCategory.db r pre).1 ++
            [Event.log (attemptSev d) (attemptMsg d ResourceCategory.db i),
             Event.apiCall d ResourceCategory.db r i])),
       some f) := by
  have hbatch := transitionBatch_hard env cfg ResourceCategory.db r pre post i d hd hpre f hf hfc
  rw [execute_region_cases, hdisc, hbatch]

/-- C3: a remote-call failure whose fault class is not the one caught for
its category propagates out of the orchestrator: the invocation ends with
that fault instead of the success response, no call is issued for any
identifier after the failing one in its batch, none for any later region,
and the cluster pass of the failing region is never reached. -/
theorem claim_C3_unexpected_fault_propagates (env : Env) (cfg : Config)
    (r e i : String) (pre post preR postR : List String)
    (hregions : AWS_REGIONS cfg = preR ++ r :: postR)
    (hrfresh : r ∉ preR)
    (hprefault : (run_regions env cfg preR).2 = none)
    (haction : cfg.ACTION = "stop")
    (hdisc : discovered env cfg r ResourceCategory.db = pre ++ i :: post)
    (hpre : ∀ j ∈ pre, benignAt env Direction.stop ResourceCategory.db r j)
    (hf : env.callFault Direction.stop ResourceCategory.db r i = some (Fault.other e)) :
    (execute env cfg).2 = Except.error (Fault.other e) ∧
    (∀ j, j ∈ post → j ∉ pre → j ≠ i →
      Event.apiCall Direction.stop ResourceCategory.db r j ∉ (execute env cfg).1) ∧
    (∀ r', r' ∈ postR → r' ∉ preR → r' ≠ r →
      ∀ (d : Direction) (c : ResourceCategory) (i' : String),
        Event.apiCall d c r' i' ∉ (execute env cfg).1) ∧
    (∀ (d : Direction) (i' : String),
      Event.apiCall d ResourceCategory.cluster r i' ∉ (execute env cfg).1) := by
  have hd : actionDirection cfg.ACTION = some Direction.stop :=
    actionDirection_stop cfg.ACTION (Or.inr haction)
  have hfc : Fault.other e ≠ catchFault ResourceCategory.db := by simp [catchFault]
  have htr := execute_region_hard env cfg r Direction.stop hd pre post i hdisc hpre
    (Fault.other e) hf hfc
  have hr2 : (execute_region env cfg r).2 = some (Fault.other e) := by rw [htr]
  have hrun : run_regions env cfg (AWS_REGIONS cfg) =
      ((run_regions env cfg preR).1 ++ (execute_region env cfg r).1, some (Fault.other e)) := by
    rw [hregions, run_regions_append env cfg preR (r :: postR) hprefault,
      run_regions_cons_hard env cfg r postR (Fault.other e) hr2]
  have hexec := execute_hard env cfg (Fault.other e) (by rw [hrun])
  have hexec1 : (execute env cfg).1 =
      Event.log .info "Starting the operation." ::
        ((run_regions env cfg preR).1 ++ (execute_region env cfg r).1) := by
    rw [hexec, hrun]
  have hregcalls : ∀ (d' : Direction) (c' : ResourceCategory) (r'' i'' : String),
      Event.apiCall d' c' r'' i'' ∈ (execute_region env cfg r).1 →
        c' = ResourceCategory.db ∧ r'' = r ∧ (i'' ∈ pre ∨ i'' = i) := by
    intro d' c' r'' i'' hm
    rw [htr] at hm
    simp only [regionDbHead, List.cons_append, List.nil_append, List.mem_cons,
      List.mem_append] at hm
    rcases hm with h | h | h | h | (h | h | h | h)
    · exact absurd h (by simp)
    · exact absurd h (by simp)
    · exact absurd h (by simp)
    · exact absurd h (by simp)
    · obtain ⟨e1, e2, e3, e4⟩ :=
        transitionLoop_call_mem env Direction.stop ResourceCategory.db r pre d' c' r'' i'' h
      exact ⟨e2, e3, Or.inl e4⟩
    · exact absurd h (by simp)
    · injection h with e1 e2 e3 e4
      exact ⟨e2, e3, Or.inr e4⟩
    · simp at h
  refine ⟨by rw [hexec], ?_, ?_, ?_⟩
  · intro j hpost hjpre hji hm
    rw [hexec1] at hm
    rcases List.mem_cons.mp hm with hc | hm2
    · exact absurd hc (by simp)
    · rcases List.mem_append.mp hm2 with hm3 | hm3
      · obtain ⟨e1, _, _⟩ := run_regions_call_mem env cfg preR _ _ r j hm3
        exact hrfresh e1
      · obtain ⟨_, _, e3⟩ := hregcalls _ _ _ _ hm3
        rcases e3 with h | h
        · exact hjpre h
        · exact hji h
  · intro r' _ hr'pre hr'r d c i' hm
    rw [hexec1] at hm
    rcases List.mem_cons.mp hm with hc | hm2
    · exact absurd hc (by simp)
    · rcases List.mem_append.mp hm2 with hm3 | hm3
      · obtain ⟨e1, _, _⟩ := run_regions_call_mem env cfg preR d c r' i' hm3
        exact hr'pre e1
      · obtain ⟨_, e2, _⟩ := hregcalls d c r' i' hm3
        exact hr'r e2
  · intro d i' hm
    rw [hexec1] at hm
    rcases List.mem_cons.mp hm with hc | hm2
    · exact absurd hc (by simp)
    · rcases List.mem_append.mp hm2 with hm3 | hm3
      · obtain ⟨e1, _, _⟩ := run_regions_call_mem env cfg preR d _ r i' hm3
        exact hrfresh e1
      · obtain ⟨e1, _, _⟩ := hregcalls d ResourceCategory.cluster r i' hm3
        exact absurd e1 (by simp)

/-- Witness for C3: in region `rb` the stop call for `bad` raises an
uncaught fault; the invocation ends with that fault, `later` (which
follows `bad` in the batch) receives no call, and the later region `rc`
receives no call at all. -/
theorem claim_C3_unexpected_fault_propagates_witness :
    (execute envHardFault cfgStop3).2 = Except.error (Fault.other "boom") ∧
    Event.apiCall Direction.stop ResourceCategory.db "rb" "later" ∉
      (execute envHardFault cfgStop3).1 ∧
    Event.apiCall Direction.stop ResourceCategory.db "rc" "x" ∉
      (execute envHardFault cfgStop3).1 := by
  have h := claim_C3_unexpected_fault_propagates envHardFault cfgStop3 "rb" "boom" "bad"
    ["good"] ["later"] ["ra"] ["rc"]
    (by decide) (by decide) (by decide) rfl (by decide)
    (by
      intro j hj
      simp only [List.mem_singleton] at hj
      subst hj
      left
      decide)
    (by decide)
  exact ⟨h.1, h.2.1 "later" (by decide) (by decide) (by decide),
    h.2.2.1 "rc" (by decide) (by decide) (by decide) Direction.stop ResourceCategory.db "x"⟩

lemma cipAux_loop (env : Env) (d : Direction) (c : ResourceCategory) (region : String)
    (names : List String) :
    ∀ prev : Event, cipAux (attemptSev d) prev (transitionLoop env d c region names).1 = true := by
  induction names with
  | nil => intro prev; rfl
  | cons n rest ih =>
    intro prev
    rcases hcf : env.callFault d c region n with _ | f
    · rw [transitionLoop_cons_none env d c region n rest hcf]
      simp [cipAux, isApiCall, isLogWithSev, ih]
    · by_cases hfc : f = catchFault c
      · subst hfc
        rw [transitionLoop_cons_caught env d c region n rest hcf]
        simp [cipAux, isApiCall, isLogWithSev, ih]
      · rw [transitionLoop_cons_hard env d c region n rest f hcf hfc]
        simp [cipAux, isApiCall, isLogWithSev]

lemma followUpOK_loop (env : Env) (d : Direction) (c : ResourceCategory) (region : String)
    (names : List String) :
    followUpOK env (transitionLoop env d c region names).1 = true := by
  induction names with
  | nil => rfl
  | cons n rest ih =>
    rcases hcf : env.callFault d c region n with _ | f
    · rw [transitionLoop_cons_none env d c region n rest hcf]
      simp [followUpOK, hcf, ih]
    · by_cases hfc : f = catchFault c
      · subst hfc
        rw [transitionLoop_cons_caught env d c region n rest hcf]
        simp [followUpOK, hcf, ih]
      · rw [transitionLoop_cons_hard env d c region n rest f hcf hfc]
        simp [followUpOK, hcf, hfc]

/-- C9 counterexample: the claim says every transition operation emits
an informational log line before each remote call; for
`_start_database_instances` the per-identifier pre-attempt line is a
debug line, so on a one-element batch the event immediately preceding
the call is not informational. -/
theorem claim_C9_log_lines_counterexample :
    ¬ (callsImmediatelyPreceded Severity.info
        (start_database_instances envAllOk "r1" ["db1"]).1 = true) := by
  decide

/-- C9 amended: for every transition operation, the log line immediately
preceding each remote call has the operation's severity — informational
for the stop operations but debug for the start operations — and each
call is immediately followed by the informational success line naming
the target state, or by the warning line when the invalid-state fault is
caught. -/
theorem claim_C9_log_lines_amended :
    (attemptSev Direction.stop = Severity.info ∧ attemptSev Direction.start = Severity.debug) ∧
    ∀ (env : Env) (d : Direction) (c : ResourceCategory) (r : String) (names : List String),
      callsImmediatelyPreceded (attemptSev d) (batchOf env d c r names).1 = true ∧
      followUpOK env (batchOf env d c r names).1 = true := by
  refine ⟨⟨rfl, rfl⟩, ?_⟩
  intro env d c r names
  rw [batchOf_unfold]
  constructor
  · simp [callsImmediatelyPreceded, isApiCall, cipAux_loop]
  · simp [followUpOK, followUpOK_loop]

/-- C10: the region list is the literal comma-split of the raw
environment value: it is never empty, the empty string yields a single
empty-string region, empty segments from leading/trailing/consecutive
commas are preserved in order, and every entry of the list — including
such empty segments — is processed, triggering both discovery queries
with that region name. -/
theorem claim_C10_regions_literal_split :
    (∀ s : String, pySplit ',' s ≠ []) ∧
    pySplit ',' "" = [""] ∧
    pySplit ',' ",a,,b," = ["", "a", "", "b", ""] ∧
    ∀ (env : Env) (cfg : Config), benign env → ∀ r ∈ AWS_REGIONS cfg,
      Event.discover r "rds:db" ∈ (execute env cfg).1 ∧
      Event.discover r "rds:cluster" ∈ (execute env cfg).1 := by
  refine ⟨?_, by decide, by decide, ?_⟩
  · intro s h
    rw [pySplit] at h
    exact splitChars_ne_nil ',' s.data (List.map_eq_nil_iff.mp h)
  · intro env cfg hb r hr
    rw [execute_benign env cfg hb]
    exact ⟨List.mem_cons_of_mem _ (List.mem_append.mpr (Or.inl
        (mem_traceConcat_of_mem _ _ r hr _ (discover_db_mem_spec env cfg r)))),
      List.mem_cons_of_mem _ (List.mem_append.mpr (Or.inl
        (mem_traceConcat_of_mem _ _ r hr _ (discover_cluster_mem_spec env cfg r))))⟩

/-- Witness for C10: with `PARAM_AWS_REGIONS = ""` the single region is
the empty string, and both discovery queries are issued for it. -/
theorem claim_C10_regions_literal_split_witness :
    Event.discover "" "rds:db" ∈ (execute envAllOk cfgEmptyRegions).1 ∧
    Event.discover "" "rds:cluster" ∈ (execute envAllOk cfgEmptyRegions).1 :=
  claim_C10_regions_literal_split.2.2.2 envAllOk cfgEmptyRegions
    (fun _ _ _ _ => Or.inl rfl) "" (by decide)

end ManageRdsState
